import Mathlib

/-!
# Verification of the natural-language command router

A shallow embedding of `detectIntent` and `INTENT_RULES` from the repository's
`run.js` (natural-language `run` command).  Strings are modelled as `List Char`
(one entry per code point; all inputs of interest are ASCII, where this agrees
with JavaScript's UTF-16 `length`).  The JavaScript regular expressions are
embedded as bespoke matchers over `List Char` with JavaScript semantics:

* the `i` flag is modelled by ASCII case folding (`Char.toLower`), which agrees
  with JS canonicalisation on the ASCII pattern literals that occur in the code;
* `\s` / `\S` use the JS WhiteSpace ∪ LineTerminator set (`isJsWs`);
* `\w` for `\b` boundaries is `[A-Za-z0-9_]` (`isWordChar`);
* `.` excludes line terminators (`isLineTerm`);
* greedy and lazy quantifier backtracking is modelled by priority-ordered
  candidate lists (`wsRests`, `wsRestsStar`, `dotSplitsLazy`) searched with
  `List.findSome?`, which reproduces the leftmost, first-alternative,
  greedy/lazy preference order of the JS backtracking engine;
* `parseFloat` is modelled exactly over the rationals (`ℚ`); its `NaN` result
  is modelled as `none`.  The only strings it is applied to are matches of
  `\$[\d,]+(\.\d{2})?` with `$` and `,` removed, whose exact decimal values
  are representable.
-/

/-- JS WhiteSpace ∪ LineTerminator, the character set matched by `\s` and
removed by `String.prototype.trim`. -/
def isJsWs (c : Char) : Bool :=
  c = ' ' || c = '\t' || c = '\n' || c = '\r' || c = '\x0b' || c = '\x0c' ||
  c = '\u00A0' || c = '\u1680' || ('\u2000' ≤ c && c ≤ '\u200A') ||
  c = '\u2028' || c = '\u2029' || c = '\u202F' || c = '\u205F' ||
  c = '\u3000' || c = '\uFEFF'

/-- JS LineTerminator, the characters `.` does not match. -/
def isLineTerm (c : Char) : Bool :=
  c = '\n' || c = '\r' || c = '\u2028' || c = '\u2029'

/-- JS `\w`: `[A-Za-z0-9_]`, the word characters used by `\b`. -/
def isWordChar (c : Char) : Bool :=
  ('a' ≤ c && c ≤ 'z') || ('A' ≤ c && c ≤ 'Z') || ('0' ≤ c && c ≤ '9') || c = '_'

/-- `String.prototype.trim`: strip leading and trailing JS whitespace. -/
def jsTrim (s : List Char) : List Char :=
  ((s.dropWhile isJsWs).reverse.dropWhile isJsWs).reverse

/-- Strip a (lowercase-given) literal pattern from the front of the input,
case-insensitively; return the rest.  Models a literal inside an `i`-flagged
JS regex. -/
def stripCI : List Char → List Char → Option (List Char)
  | [], s => some s
  | _ :: _, [] => none
  | p :: ps, c :: cs => if c.toLower = p then stripCI ps cs else none

/-- `\b` when the pattern continues with a word character: the previous
character (`none` = start of input) must not be a word character. -/
def noWordBefore : Option Char → Bool
  | none => true
  | some c => !(isWordChar c)

/-- `\b` right after a word character of the pattern: the next input character
must not be a word character (or the input must end). -/
def noWordAt : List Char → Bool
  | [] => true
  | c :: _ => !(isWordChar c)

/-- The rests of the input after consuming a nonempty whitespace run,
longest consumption first: the backtracking candidates of a greedy `\s+`. -/
def wsRests : List Char → List (List Char)
  | [] => []
  | c :: cs => if isJsWs c then wsRests cs ++ [cs] else []

/-- Candidates of a greedy `\s*`: those of `\s+` and then the input unchanged. -/
def wsRestsStar (s : List Char) : List (List Char) := wsRests s ++ [s]

/-- Candidates of a lazy `(.+?)`: (consumed, rest) pairs, shortest consumed
first, consuming only non-line-terminator characters, at least one. -/
def dotSplitsLazy : List Char → List (List Char × List Char)
  | [] => []
  | c :: cs =>
    if isLineTerm c then []
    else ([c], cs) :: (dotSplitsLazy cs).map (fun p => (c :: p.1, p.2))

/-- A final greedy `(.+)`: the maximal nonempty run of non-line-terminator
characters, and the rest. -/
def dotTakeGreedy (s : List Char) : Option (List Char × List Char) :=
  let t := s.takeWhile (fun c => !(isLineTerm c))
  if t.isEmpty then none else some (t, s.dropWhile (fun c => !(isLineTerm c)))

/-- `\S+` at the current position: the maximal nonempty non-whitespace run. -/
def tokenRun (s : List Char) : Option (List Char) :=
  let t := s.takeWhile (fun c => !(isJsWs c))
  if t.isEmpty then none else some t

/-- Search every input position, left to right, for a per-position matcher
that may need the previous character (for `\b`); first hit wins, as with an
unanchored JS regex. -/
def scanMatch (f : Option Char → List Char → Option α) :
    Option Char → List Char → Option α
  | prev, [] => f prev []
  | prev, c :: cs =>
    match f prev (c :: cs) with
    | some r => some r
    | none => scanMatch f (some c) cs

/-- Boolean variant of `scanMatch` for regex `test` calls. -/
def scanExists (f : Option Char → List Char → Bool) :
    Option Char → List Char → Bool
  | prev, [] => f prev []
  | prev, c :: cs => f prev (c :: cs) || scanExists f (some c) cs

/-- `String.prototype.replace` with a non-global regex: delete the leftmost
match.  The per-position matcher returns the rest of the input after the
match. -/
def replaceFirstBy (f : Option Char → List Char → Option (List Char)) :
    Option Char → List Char → List Char
  | prev, [] => (match f prev [] with | some r => r | none => [])
  | prev, c :: cs =>
    match f prev (c :: cs) with
    | some r => r
    | none => c :: replaceFirstBy f (some c) cs

/-- One step of a global replace: the matcher returns (matched text, rest). -/
def replaceAllGo (f : Option Char → List Char → Option (List Char × List Char)) :
    Nat → Option Char → List Char → List Char
  | 0, _, s => s
  | _ + 1, prev, [] => (match f prev [] with | some (_, r) => r | none => [])
  | n + 1, prev, c :: cs =>
    match f prev (c :: cs) with
    | some (m, r) =>
      match m with
      | [] => c :: replaceAllGo f n (some c) cs
      | _ :: _ => replaceAllGo f n m.getLast? r
    | none => c :: replaceAllGo f n (some c) cs

/-- `String.prototype.replace` with a `g`-flagged regex: delete every
non-overlapping leftmost match, resuming after each match (the fuel bounds the
recursion; every match of the patterns used here is nonempty, so the fuel
`s.length` is never exhausted before the scan completes). -/
def replaceAll (f : Option Char → List Char → Option (List Char × List Char))
    (s : List Char) : List Char :=
  replaceAllGo f s.length none s

/-- Pair a rest (a suffix of `s`) with the text consumed before it. -/
def withMatched (s : List Char) (rest : List Char) : List Char × List Char :=
  (s.take (s.length - rest.length), rest)

/-- Case-insensitive substring containment: models `/lit/i.test(s)`. -/
def containsCI (p : List Char) (s : List Char) : Bool :=
  (scanMatch (fun _ r => stripCI p r) none s).isSome

/-- `/\b(w₁|w₂|...)\b/i.test(s)`: some word of the list occurs with word
boundaries on both sides. -/
def containsWordCI (ws : List (List Char)) (s : List Char) : Bool :=
  scanExists
    (fun prev r =>
      noWordBefore prev &&
      ws.any fun w =>
        match stripCI w r with
        | some rest => noWordAt rest
        | none => false)
    none s

/-- Backtracking candidates of an optional article group such as
`(?:(?:a|our|the|my|this)\s+)?`: for each word in pattern order, every greedy
`\s+` extent, and finally the skip of the whole group. -/
def articleRests (arts : List (List Char)) (s : List Char) : List (List Char) :=
  (arts.map fun a =>
    match stripCI a s with
    | some r => wsRests r
    | none => []).flatten ++ [s]

/-! ## Rule 1/2: approvals.decide -/

/-- `/^approve\s+(\S+)/i`: the token after "approve", used both by the rule's
`test` (`/^approve\s+\S+/i`, identical up to the capture group) and by its
`extract`. -/
def approveDecideMatch (s : List Char) : Option (List Char) :=
  (stripCI "approve".data s).bind fun r1 =>
  (wsRests r1).findSome? tokenRun

/-- Rule 1 `test`: `/^approve\s+\S+/i.test(s) && !/(request|for|need)/i.test(s)`. -/
def approveDecideTest (s : List Char) : Bool :=
  (approveDecideMatch s).isSome &&
  !(containsCI "request".data s || containsCI "for".data s ||
    containsCI "need".data s)

/-- `/^(?:deny|reject)\s+(\S+)/i`, shared by rule 2's `test` and `extract`. -/
def denyRejectMatch (s : List Char) : Option (List Char) :=
  (match stripCI "deny".data s with
   | some r => some r
   | none => stripCI "reject".data s).bind fun r1 =>
  (wsRests r1).findSome? tokenRun

/-- Rule 2 `test`: `/^(deny|reject)\s+\S+/i.test(s)`. -/
def denyRejectTest (s : List Char) : Bool :=
  (denyRejectMatch s).isSome

/-! ## Rule 3: approvals.list -/

/-- `approvals?\b` at the current position. -/
def approvalsWordB (s : List Char) : Bool :=
  (match stripCI "approvals".data s with
   | some r => noWordAt r
   | none => false) ||
  (match stripCI "approval".data s with
   | some r => noWordAt r
   | none => false)

/-- `\b(pending\s+)?approvals?\b` at the current position. -/
def pendingApprovalsAt (prev : Option Char) (s : List Char) : Bool :=
  noWordBefore prev &&
  ((match stripCI "pending".data s with
    | some rp => (wsRests rp).any approvalsWordB
    | none => false) ||
   approvalsWordB s)

/-- `p` holds at this or a later position of the same line (the gap is matched
by `.`, which excludes line terminators). -/
def searchSameLine (p : Option Char → List Char → Bool) :
    Option Char → List Char → Bool
  | prev, [] => p prev []
  | prev, c :: cs =>
    p prev (c :: cs) || (!(isLineTerm c) && searchSameLine p (some c) cs)

/-- Rule 3 `test`: `/\b(show|list|get|display|view)\b.*\b(pending\s+)?approvals?\b/i`. -/
def approvalsListTest (s : List Char) : Bool :=
  scanExists
    (fun prev r =>
      noWordBefore prev &&
      ["show".data, "list".data, "get".data, "display".data, "view".data].any
        fun w =>
          match stripCI w r with
          | some rest =>
            noWordAt rest &&
            searchSameLine pendingApprovalsAt (some (w.getLastD 'a')) rest
          | none => false)
    none s

/-! ## Rule 4: approvals.request -/

/-- `approval\b` at the current position. -/
def approvalWordB (s : List Char) : Bool :=
  match stripCI "approval".data s with
  | some r => noWordAt r
  | none => false

/-- `\b(request|need|submit)\s+(an?\s+)?approval\b` at the current position. -/
def reqApprovalAt (prev : Option Char) (s : List Char) : Bool :=
  noWordBefore prev &&
  ["request".data, "need".data, "submit".data].any fun w =>
    match stripCI w s with
    | some r1 =>
      (wsRests r1).any fun r2 =>
        (articleRests ["an".data, "a".data] r2).any approvalWordB
    | none => false

/-- `\bapproval\s+(for|to|request)/i` at the current position. -/
def approvalForAt (prev : Option Char) (s : List Char) : Bool :=
  noWordBefore prev &&
  (match stripCI "approval".data s with
   | some r1 =>
     (wsRests r1).any fun r2 =>
       (stripCI "for".data r2).isSome || (stripCI "to".data r2).isSome ||
       (stripCI "request".data r2).isSome
   | none => false)

/-- `\bapprove\s+(a|the|this|my)\b` at the current position. -/
def approveArticleAt (prev : Option Char) (s : List Char) : Bool :=
  noWordBefore prev &&
  (match stripCI "approve".data s with
   | some r1 =>
     (wsRests r1).any fun r2 =>
       ["a".data, "the".data, "this".data, "my".data].any fun w =>
         match stripCI w r2 with
         | some r3 => noWordAt r3
         | none => false
   | none => false)

/-- Rule 4 `test`: the disjunction of its three regexes. -/
def approvalsRequestTest (s : List Char) : Bool :=
  scanExists reqApprovalAt none s ||
  scanExists approvalForAt none s ||
  scanExists approveArticleAt none s

/-- The deterministic tail `\s*(for|to)?\s*`: maximal whitespace, then "for"
else "to" else nothing (both start with letters, so the greedy whitespace runs
cannot be shortened to help them), then maximal whitespace. -/
def forToTail (s : List Char) : List Char :=
  let r := s.dropWhile isJsWs
  let r2 :=
    match stripCI "for".data r with
    | some x => x
    | none =>
      match stripCI "to".data r with
      | some x => x
      | none => r
  r2.dropWhile isJsWs

/-- Per-position matcher of
`\b(request|need|submit)\s+(an?\s+)?approval\s*(for|to)?\s*`, returning the
rest of the input after the (leftmost-greedy) match. -/
def reqApprovalRepl (prev : Option Char) (s : List Char) : Option (List Char) :=
  if noWordBefore prev then
    ["request".data, "need".data, "submit".data].findSome? fun w =>
      (stripCI w s).bind fun r1 =>
      (wsRests r1).findSome? fun r2 =>
      (articleRests ["an".data, "a".data] r2).findSome? fun r3 =>
      (stripCI "approval".data r3).map forToTail
  else none

/-- Per-position matcher of `\bapproval\s*(for|to|request)\s*`, returning the
rest after the match. -/
def approvalForRepl (prev : Option Char) (s : List Char) : Option (List Char) :=
  if noWordBefore prev then
    (stripCI "approval".data s).bind fun r1 =>
      let r2 := r1.dropWhile isJsWs
      ((match stripCI "for".data r2 with
        | some x => some x
        | none =>
          match stripCI "to".data r2 with
          | some x => some x
          | none => stripCI "request".data r2 : Option (List Char))).map
        fun r3 => r3.dropWhile isJsWs
  else none

/-- `s.replace(/^(request|need|submit)\s+(an?\s+)?approval\s*/i, '')`
(anchored, so only position 0 is tried, and `^` carries no `\b`). -/
def reqApprovalStrict (s : List Char) : List Char :=
  match
    ["request".data, "need".data, "submit".data].findSome? fun w =>
      (stripCI w s).bind fun r1 =>
      (wsRests r1).findSome? fun r2 =>
      (articleRests ["an".data, "a".data] r2).findSome? fun r3 =>
      (stripCI "approval".data r3).map fun r4 => r4.dropWhile isJsWs
  with
  | some r => r
  | none => s

/-- `[\d,]`, the character class of `\$[\d,]+(\.\d{2})?`. -/
def digitComma (c : Char) : Bool := c.isDigit || c = ','

/-- `\$[\d,]+(\.\d{2})?` at the current position: the matched text.  The run
is the maximal nonempty digits-and-commas run (greedy, and no shorter run can
enable the cents group, whose first character `.` is outside the class); the
cents group is taken iff `.` plus two digits follow. -/
def amountAt (s : List Char) : Option (List Char) :=
  match s with
  | [] => none
  | c :: r =>
    if c = '$' then
      if (r.takeWhile digitComma).isEmpty then none
      else
        match r.dropWhile digitComma with
        | '.' :: a :: b :: _ =>
          if a.isDigit && b.isDigit then
            some ('$' :: r.takeWhile digitComma ++ '.' :: a :: b :: [])
          else some ('$' :: r.takeWhile digitComma)
        | _ => some ('$' :: r.takeWhile digitComma)
    else none

/-- `s.match(/\$[\d,]+(\.\d{2})?/)`: the leftmost amount match. -/
def amountScan : List Char → Option (List Char)
  | [] => none
  | c :: cs =>
    match amountAt (c :: cs) with
    | some m => some m
    | none => amountScan cs

/-- The numeric value of a digit list (most significant first). -/
def digitsToNat (l : List Char) : Nat :=
  l.foldl (fun n c => n * 10 + (c.toNat - '0'.toNat)) 0

/-- `parseFloat(m.replace(/[$,]/g, ''))` for an amount match `m`: drop `$` and
commas, leaving digits with an optional two-digit cents group, and read the
exact decimal value; `NaN` (the empty digit string) is `none`.  JS float
rounding is abstracted: the value is kept as an exact rational. -/
def parseAmount (m : List Char) : Option ℚ :=
  match (m.filter fun c => !(c = '$' || c = ',')).dropWhile Char.isDigit with
  | '.' :: a :: b :: [] =>
    some ((digitsToNat ((m.filter fun c => !(c = '$' || c = ',')).takeWhile
        Char.isDigit) : ℚ) + (digitsToNat [a, b] : ℚ) / 100)
  | _ =>
    if ((m.filter fun c => !(c = '$' || c = ',')).takeWhile
        Char.isDigit).isEmpty then none
    else
      some (digitsToNat ((m.filter fun c => !(c = '$' || c = ',')).takeWhile
        Char.isDigit) : ℚ)

/-- The `amount` field of the approvals.request extractor:
`undefined` (outer `none`) when no amount matches, otherwise the parsed value
(`NaN` as inner `none`). -/
def requestAmount (s : List Char) : Option (Option ℚ) :=
  (amountScan s).map parseAmount

/-! ## Rule 5: knowledge.create -/

/-- Rule 5 storage-verb regex
`\b(store|save|add|remember|record|create\s+(a\s+)?knowledge|put|set)\b`
at the current position. -/
def storageVerbAt (prev : Option Char) (s : List Char) : Bool :=
  noWordBefore prev &&
  (["store".data, "save".data, "add".data, "remember".data, "record".data,
    "put".data, "set".data].any
     (fun w =>
       match stripCI w s with
       | some r => noWordAt r
       | none => false) ||
   (match stripCI "create".data s with
    | some r1 =>
      (wsRests r1).any fun r2 =>
        (articleRests ["a".data] r2).any fun r3 =>
          match stripCI "knowledge".data r3 with
          | some r4 => noWordAt r4
          | none => false
    | none => false))

/-- Rule 5 `test`: storage verb present and neither "request" nor "approval"
occurs as a substring. -/
def knowledgeCreateTest (s : List Char) : Bool :=
  scanExists storageVerbAt none s &&
  !(containsCI "request".data s || containsCI "approval".data s)

/-- Per-position matcher of the colon pattern
`\b(?:store|save|add|remember|record|put|set)\s+(?:(?:a|our|the|my|this)\s+)?(.+?):\s*(.+)`,
returning the two captures (title, content).  The nested `findSome?` searches
realise the JS backtracking priority: greedy `\s+` longest first, the filler
alternatives in pattern order then skipped, the lazy `(.+?)` shortest first,
greedy `\s*` longest first, and a final greedy `(.+)`. -/
def kcColonAt (prev : Option Char) (s : List Char) :
    Option (List Char × List Char) :=
  if noWordBefore prev then
    ["store".data, "save".data, "add".data, "remember".data, "record".data,
     "put".data, "set".data].findSome? fun w =>
      (stripCI w s).bind fun r1 =>
      (wsRests r1).findSome? fun r2 =>
      (articleRests ["a".data, "our".data, "the".data, "my".data, "this".data]
          r2).findSome? fun r3 =>
      (dotSplitsLazy r3).findSome? fun tc =>
        match tc.2 with
        | ':' :: r5 =>
          (wsRestsStar r5).findSome? fun r6 =>
            (dotTakeGreedy r6).map fun cd => (tc.1, cd.1)
        | _ => none
  else none

/-- Per-position matcher of the simple pattern
`\b(?:store|save|add|remember|record|put|set)\s+(?:that\s+|this\s+|our\s+|the\s+|a\s+)?(.+)`,
returning the capture. -/
def kcSimpleAt (prev : Option Char) (s : List Char) : Option (List Char) :=
  if noWordBefore prev then
    ["store".data, "save".data, "add".data, "remember".data, "record".data,
     "put".data, "set".data].findSome? fun w =>
      (stripCI w s).bind fun r1 =>
      (wsRests r1).findSome? fun r2 =>
      (articleRests ["that".data, "this".data, "our".data, "the".data,
          "a".data] r2).findSome? fun r3 =>
      (dotTakeGreedy r3).map fun cd => cd.1
  else none

/-- `text.split(/\s+/)`: split on nonempty whitespace runs, keeping the empty
chunks JS produces at a leading or trailing separator.  A whitespace character
ends the current chunk only when it is the first of its run (the following
character is not whitespace) or at the end of the input. -/
def splitWsJS : List Char → List (List Char)
  | [] => [[]]
  | c :: cs =>
    if isJsWs c then
      match cs with
      | [] => [[], []]
      | d :: _ => if isJsWs d then splitWsJS cs else [] :: splitWsJS cs
    else
      match splitWsJS cs with
      | t :: ts => (c :: t) :: ts
      | [] => [[c]]

/-- `words.join(' ')`. -/
def joinSpace : List (List Char) → List Char
  | [] => []
  | [x] => x
  | x :: y :: ys => x ++ ' ' :: joinSpace (y :: ys)

/-! ## Rule 6: knowledge.list -/

/-- Rule 6 `test`: `/\b(list|show|display|view)\s+(all\s+)?(knowledge|entries|docs)\b/i`. -/
def knowledgeListTest (s : List Char) : Bool :=
  scanExists
    (fun prev r =>
      noWordBefore prev &&
      ["list".data, "show".data, "display".data, "view".data].any fun w =>
        match stripCI w r with
        | some r1 =>
          (wsRests r1).any fun r2 =>
            (articleRests ["all".data] r2).any fun r3 =>
              ["knowledge".data, "entries".data, "docs".data].any fun t =>
                match stripCI t r3 with
                | some r4 => noWordAt r4
                | none => false
        | none => false)
    none s

/-! ## Rule 7: knowledge.search -/

/-- Rule 7 `test` opener
`\b(what('?s|\s+is|\s+are)|how\s+(do|to|does)|find|search|look\s*up|where|tell\s+me|explain|describe)\b`
at the current position (the final `\b` follows a word character in every
alternative, so it is `noWordAt`). -/
def searchOpenerAt (prev : Option Char) (s : List Char) : Bool :=
  noWordBefore prev &&
  ((match stripCI "what".data s with
    | some r =>
      (match stripCI "'s".data r with
       | some r2 => noWordAt r2
       | none => false) ||
      (match stripCI "s".data r with
       | some r2 => noWordAt r2
       | none => false) ||
      ((wsRests r).any fun r2 =>
        ["is".data, "are".data].any fun w =>
          match stripCI w r2 with
          | some r3 => noWordAt r3
          | none => false)
    | none => false) ||
   (match stripCI "how".data s with
    | some r =>
      (wsRests r).any fun r2 =>
        ["do".data, "to".data, "does".data].any fun w =>
          match stripCI w r2 with
          | some r3 => noWordAt r3
          | none => false
    | none => false) ||
   (match stripCI "find".data s with
    | some r => noWordAt r
    | none => false) ||
   (match stripCI "search".data s with
    | some r => noWordAt r
    | none => false) ||
   (match stripCI "look".data s with
    | some r =>
      (wsRestsStar r).any fun r2 =>
        match stripCI "up".data r2 with
        | some r3 => noWordAt r3
        | none => false
    | none => false) ||
   (match stripCI "where".data s with
    | some r => noWordAt r
    | none => false) ||
   (match stripCI "tell".data s with
    | some r =>
      (wsRests r).any fun r2 =>
        match stripCI "me".data r2 with
        | some r3 => noWordAt r3
        | none => false
    | none => false) ||
   (match stripCI "explain".data s with
    | some r => noWordAt r
    | none => false) ||
   (match stripCI "describe".data s with
    | some r => noWordAt r
    | none => false))

/-- Rule 7 `test`: a question opener and none of "approval", "request",
"pending" as a substring. -/
def knowledgeSearchTest (s : List Char) : Bool :=
  scanExists searchOpenerAt none s &&
  !(containsCI "approval".data s || containsCI "request".data s ||
    containsCI "pending".data s)

/-- The alternation group of the extractor's global strip regex
`\b(what('?s|\s+is|\s+are)|how\s+(do|to|does)|find|search(\s+for)?|look\s*up|where('?s|\s+is)|tell\s+me\s+(about)?|explain|describe)\s*`
at the current position, returning the rest after the alternative,
alternatives in pattern order.  The group's leading `\b` (checked by
`ksStripAt`) and the trailing `\s*` are outside this alternation; there is no
trailing `\b` in the source regex, so no boundary is required after an
alternative. -/
def ksAltRest (s : List Char) : Option (List Char) :=
  ((stripCI "what".data s).bind fun r =>
    (match stripCI "'s".data r with
     | some r2 => some r2
     | none => stripCI "s".data r) <|>
    (wsRests r).findSome? (stripCI "is".data) <|>
    (wsRests r).findSome? (stripCI "are".data)) <|>
  ((stripCI "how".data s).bind fun r =>
    (wsRests r).findSome? fun r2 =>
      stripCI "do".data r2 <|> stripCI "to".data r2 <|>
      stripCI "does".data r2) <|>
  stripCI "find".data s <|>
  ((stripCI "search".data s).bind fun r =>
    (wsRests r).findSome? (stripCI "for".data) <|> some r) <|>
  ((stripCI "look".data s).bind fun r =>
    (wsRestsStar r).findSome? (stripCI "up".data)) <|>
  ((stripCI "where".data s).bind fun r =>
    (match stripCI "'s".data r with
     | some r2 => some r2
     | none => stripCI "s".data r) <|>
    (wsRests r).findSome? (stripCI "is".data)) <|>
  ((stripCI "tell".data s).bind fun r =>
    (wsRests r).findSome? fun r2 =>
      (stripCI "me".data r2).bind fun r3 =>
        (wsRests r3).findSome? fun r4 =>
          stripCI "about".data r4 <|> some r4) <|>
  stripCI "explain".data s <|>
  stripCI "describe".data s

/-- Per-position matcher of the global strip regex: the leading `\b` (every
alternative starts with a word character, so the boundary holds iff the
previous character is not one), the alternation, then a greedy trailing
`\s*`; returns (matched text, rest) for the global replace. -/
def ksStripAt (prev : Option Char) (s : List Char) :
    Option (List Char × List Char) :=
  if noWordBefore prev then
    (ksAltRest s).map fun r => withMatched s (r.dropWhile isJsWs)
  else none

/-- `query.replace(/^(our|the|my|a|an)\s+/i, '')`: strip one leading article. -/
def stripLeadArticle (s : List Char) : List Char :=
  match
    ["our".data, "the".data, "my".data, "a".data, "an".data].findSome?
      fun w =>
        (stripCI w s).bind fun r =>
          if (r.takeWhile isJsWs).isEmpty then none
          else some (r.dropWhile isJsWs)
  with
  | some r => r
  | none => s

/-- `q.replace(/\?+$/, '')`: strip the maximal trailing run of `?`. -/
def dropTrailingQs (s : List Char) : List Char :=
  (s.reverse.dropWhile (fun c => c = '?')).reverse

/-- The knowledge.search extractor: strip all question openers, one leading
article and trailing question marks, trim; fall back to the input with only
trailing question marks stripped when fewer than 2 characters remain. -/
def ksExtract (s : List Char) : List Char :=
  let q := jsTrim (dropTrailingQs (stripLeadArticle (replaceAll ksStripAt s)))
  if q.isEmpty || q.length < 2 then jsTrim (dropTrailingQs s) else q

/-! ## Rule 8: requests.list -/

/-- Rule 8 `test`: `/\b(show|list|display|view)\s+(all\s+)?(open\s+)?requests?\b/i`. -/
def requestsListTest (s : List Char) : Bool :=
  scanExists
    (fun prev r =>
      noWordBefore prev &&
      ["show".data, "list".data, "display".data, "view".data].any fun w =>
        match stripCI w r with
        | some r1 =>
          (wsRests r1).any fun r2 =>
            (articleRests ["all".data] r2).any fun r3 =>
              (articleRests ["open".data] r3).any fun r4 =>
                (match stripCI "requests".data r4 with
                 | some r5 => noWordAt r5
                 | none => false) ||
                (match stripCI "request".data r4 with
                 | some r5 => noWordAt r5
                 | none => false)
        | none => false)
    none s

/-! ## Rule 9: requests.create -/

/-- `\b(create|make|new|submit|open)\s+(a\s+)?request\b` at the current
position. -/
def createRequestAt (prev : Option Char) (s : List Char) : Bool :=
  noWordBefore prev &&
  ["create".data, "make".data, "new".data, "submit".data, "open".data].any
    fun w =>
      match stripCI w s with
      | some r1 =>
        (wsRests r1).any fun r2 =>
          (articleRests ["a".data] r2).any fun r3 =>
            match stripCI "request".data r3 with
            | some r4 => noWordAt r4
            | none => false
      | none => false

/-- `\brequest\s+to\b` at the current position. -/
def requestToAt (prev : Option Char) (s : List Char) : Bool :=
  noWordBefore prev &&
  (match stripCI "request".data s with
   | some r1 =>
     (wsRests r1).any fun r2 =>
       match stripCI "to".data r2 with
       | some r3 => noWordAt r3
       | none => false
   | none => false)

/-- Rule 9 `test`: the disjunction of its three conditions. -/
def requestsCreateTest (s : List Char) : Bool :=
  scanExists createRequestAt none s ||
  scanExists requestToAt none s ||
  (containsWordCI
     ["need".data, "schedule".data, "book".data, "arrange".data] s &&
   !(containsCI "approval".data s))

/-- Per-position matcher of
`\b(create|make|new|submit|open)\s+(a\s+)?request\s*(for|to)?\s*`, returning
the rest after the match. -/
def createRequestRepl (prev : Option Char) (s : List Char) :
    Option (List Char) :=
  if noWordBefore prev then
    ["create".data, "make".data, "new".data, "submit".data,
     "open".data].findSome? fun w =>
      (stripCI w s).bind fun r1 =>
      (wsRests r1).findSome? fun r2 =>
      (articleRests ["a".data] r2).findSome? fun r3 =>
      (stripCI "request".data r3).map forToTail
  else none

/-- Per-position matcher of `\brequest\s+to\s*`, returning the rest. -/
def requestToRepl (prev : Option Char) (s : List Char) : Option (List Char) :=
  if noWordBefore prev then
    (stripCI "request".data s).bind fun r1 =>
    (wsRests r1).findSome? fun r2 =>
    (stripCI "to".data r2).map fun r3 => r3.dropWhile isJsWs
  else none

/-- Per-position matcher of `\b(need\s+to|need\s+a|schedule|book|arrange)\s*`,
returning the rest. -/
def schedRepl (prev : Option Char) (s : List Char) : Option (List Char) :=
  if noWordBefore prev then
    (((stripCI "need".data s).bind fun r =>
        (wsRests r).findSome? (stripCI "to".data)) <|>
     ((stripCI "need".data s).bind fun r =>
        (wsRests r).findSome? (stripCI "a".data)) <|>
     stripCI "schedule".data s <|>
     stripCI "book".data s <|>
     stripCI "arrange".data s).map fun r => r.dropWhile isJsWs
  else none

/-- `\b(high|low)\s*(?:priority)?\b` (for the given word): the final `\b` can
follow the word itself, the optional "priority", or consumed whitespace (where
it holds iff the next character is a word character). -/
def prioWordTest (w : List Char) (s : List Char) : Bool :=
  scanExists
    (fun prev r =>
      noWordBefore prev &&
      match stripCI w r with
      | some r1 =>
        ((wsRestsStar r1).any fun r2 =>
          match stripCI "priority".data r2 with
          | some r3 => noWordAt r3
          | none => false) ||
        noWordAt r1 ||
        ((wsRests r1).any fun r2 =>
          match r2 with
          | c :: _ => isWordChar c
          | [] => false)
      | none => false)
    none s

/-- Per-position matcher of the global priority strip
`\b(urgent|asap|critical|emergency|high\s*priority|low\s*priority)\b`,
returning (matched text, rest). -/
def prioStripAt (prev : Option Char) (s : List Char) :
    Option (List Char × List Char) :=
  if noWordBefore prev then
    ((["urgent".data, "asap".data, "critical".data,
       "emergency".data].findSome? fun w =>
        (stripCI w s).bind fun r => if noWordAt r then some r else none) <|>
     (["high".data, "low".data].findSome? fun w =>
        (stripCI w s).bind fun r1 =>
        (wsRestsStar r1).findSome? fun r2 =>
        (stripCI "priority".data r2).bind fun r3 =>
          if noWordAt r3 then some r3 else none)).map (withMatched s)
  else none

/-! ## Rule 10: status -/

/-- Rule 10 `test`: `/^(status|health|check|ping)\b/i` (anchored). -/
def statusTest (s : List Char) : Bool :=
  ["status".data, "health".data, "check".data, "ping".data].any fun w =>
    match stripCI w s with
    | some r => noWordAt r
    | none => false

/-! ## Payloads, extractors and the dispatcher -/

/-- The typed payload of each intent.  `Option` fields model `undefined`;
the amount's inner `Option` models `NaN` (see `parseAmount`). -/
inductive Payload where
  | approvalsDecide (id : Option (List Char)) (decision : List Char)
  | approvalsList (status : Option (List Char))
  | approvalsRequest (title description : List Char) (amount : Option (Option ℚ))
  | knowledgeCreate (title content : List Char)
  | knowledgeList
  | knowledgeSearch (query : List Char)
  | requestsList (status : Option (List Char))
  | requestsCreate (title description priority : List Char)
  | statusIntent
deriving DecidableEq

/-- The `{ intent, data }` object `detectIntent` returns. -/
structure Detected where
  intent : List Char
  data : Payload
deriving DecidableEq

/-- The approvals.request extractor: strip the request lead-in then any
`approval for/to/request` phrase for the title; re-derive with the anchored
core phrase when fewer than 3 characters remain; default to
"Approval Request"; scan separately for a currency amount; the description is
the whole input. -/
def approvalsRequestExtract (s : List Char) : Payload :=
  let t1 := jsTrim (replaceFirstBy approvalForRepl none
    (replaceFirstBy reqApprovalRepl none s))
  let t2 := if t1.isEmpty || t1.length < 3 then jsTrim (reqApprovalStrict s)
            else t1
  .approvalsRequest (if t2.isEmpty then "Approval Request".data else t2) s
    (requestAmount s)

/-- The result of the knowledge.create colon pattern on the whole input. -/
def kcColonScan (s : List Char) : Option (List Char × List Char) :=
  scanMatch kcColonAt none s

/-- The result of the knowledge.create simple pattern on the whole input. -/
def kcSimpleScan (s : List Char) : Option (List Char) :=
  scanMatch kcSimpleAt none s

/-- The knowledge.create extractor: colon split if the colon pattern matches,
else the simple pattern with the first up-to-5 words as title, else the
"New Entry" default. -/
def knowledgeCreateExtract (s : List Char) : Payload :=
  match kcColonScan s with
  | some tc => .knowledgeCreate (jsTrim tc.1) (jsTrim tc.2)
  | none =>
    match kcSimpleScan s with
    | some txt =>
      let text := jsTrim txt
      .knowledgeCreate (joinSpace ((splitWsJS text).take 5)) text
    | none => .knowledgeCreate "New Entry".data s

/-- The requests.create extractor: strip the create/request/scheduling
lead-ins, infer the priority from urgency words, strip priority words from the
title (global replace), and fall back to the whole trimmed input when fewer
than 3 characters remain. -/
def requestsCreateExtract (s : List Char) : Payload :=
  let t0 := jsTrim (replaceFirstBy schedRepl none
    (replaceFirstBy requestToRepl none
      (replaceFirstBy createRequestRepl none s)))
  let priority :=
    if containsWordCI
        ["urgent".data, "asap".data, "critical".data, "emergency".data] s then
      "critical".data
    else if prioWordTest "high".data s then "high".data
    else if prioWordTest "low".data s then "low".data
    else "medium".data
  let t1 := jsTrim (replaceAll prioStripAt t0)
  let t2 := if t1.isEmpty || t1.length < 3 then jsTrim s else t1
  .requestsCreate t2 s priority

/-- `s.endsWith('?')`. -/
def endsWithQ (s : List Char) : Bool := s.getLast? = some '?'

/-- Some rule's predicate holds (in table order; used to state the fallback
and Unresolved conditions). -/
def anyRuleTest (s : List Char) : Bool :=
  approveDecideTest s || denyRejectTest s || approvalsListTest s ||
  approvalsRequestTest s || knowledgeCreateTest s || knowledgeListTest s ||
  knowledgeSearchTest s || requestsListTest s || requestsCreateTest s ||
  statusTest s

/-- The body of `detectIntent` on the trimmed input: try the rules in table
order (first match wins, running that rule's extractor), then the
knowledge-search fallback for inputs that end in "?" or are shorter than 80
characters, else `none`. -/
def detectCore (s : List Char) : Option Detected :=
  if approveDecideTest s then
    some ⟨"approvals.decide".data,
      .approvalsDecide (approveDecideMatch s) "approved".data⟩
  else if denyRejectTest s then
    some ⟨"approvals.decide".data,
      .approvalsDecide (denyRejectMatch s) "denied".data⟩
  else if approvalsListTest s then
    some ⟨"approvals.list".data,
      .approvalsList
        (if containsCI "pending".data s then some "pending".data else none)⟩
  else if approvalsRequestTest s then
    some ⟨"approvals.request".data, approvalsRequestExtract s⟩
  else if knowledgeCreateTest s then
    some ⟨"knowledge.create".data, knowledgeCreateExtract s⟩
  else if knowledgeListTest s then
    some ⟨"knowledge.list".data, .knowledgeList⟩
  else if knowledgeSearchTest s then
    some ⟨"knowledge.search".data, .knowledgeSearch (ksExtract s)⟩
  else if requestsListTest s then
    some ⟨"requests.list".data,
      .requestsList
        (if containsWordCI ["open".data, "pending".data, "active".data] s then
          some "open".data
         else none)⟩
  else if requestsCreateTest s then
    some ⟨"requests.create".data, requestsCreateExtract s⟩
  else if statusTest s then
    some ⟨"status".data, .statusIntent⟩
  else if endsWithQ s || s.length < 80 then
    some ⟨"knowledge.search".data,
      .knowledgeSearch (jsTrim (dropTrailingQs s))⟩
  else
    none

/-- `detectIntent`: trim the input, then run the rule table and fallback. -/
def detectIntent (input : List Char) : Option Detected :=
  detectCore (jsTrim input)

/-- The well-formedness the extractors guarantee on every produced payload:
the decide identifier is always derived (the `test` ensures the `extract`'s
match succeeds, so `match?.[1]` is never `undefined`), and the titles of
approvals.request and requests.create are nonempty with the requests.create
priority one of its four documented values. -/
def WellFormedPayload : Payload → Prop
  | .approvalsDecide id _ => id.isSome = true
  | .approvalsRequest title _ _ => title ≠ []
  | .requestsCreate title _ priority =>
    title ≠ [] ∧
    (priority = "critical".data ∨ priority = "high".data ∨
     priority = "low".data ∨ priority = "medium".data)
  | _ => True

/-- `$` immediately followed by a decimal digit occurs somewhere (the
spec's claimed condition for an amount match). -/
def hasDollarDigit : List Char → Bool
  | [] => false
  | c :: cs =>
    (c = '$' &&
      match cs with
      | d :: _ => d.isDigit
      | [] => false) ||
    hasDollarDigit cs

/-! ## Supporting lemmas -/

theorem jsTrim_eq_rdrop (s : List Char) :
    jsTrim s = List.rdropWhile isJsWs (s.dropWhile isJsWs) := rfl

theorem jsTrim_idem (s : List Char) : jsTrim (jsTrim s) = jsTrim s := by
  rw [jsTrim_eq_rdrop, jsTrim_eq_rdrop]
  set L := s.dropWhile isJsWs with hL
  have hdrop : List.dropWhile isJsWs (List.rdropWhile isJsWs L) =
      List.rdropWhile isJsWs L := by
    rcases h0 : List.rdropWhile isJsWs L with _ | ⟨c, cs⟩
    · simp
    · rw [List.dropWhile_cons]
      have hpre := List.rdropWhile_prefix (p := isJsWs) (l := L)
      rw [h0] at hpre
      rcases hpre with ⟨t, ht⟩
      have hcL : ∃ ds, L = c :: ds := ⟨cs ++ t, by rw [← ht]; simp⟩
      rcases hcL with ⟨ds, hds⟩
      have hc : ¬ isJsWs c = true := by
        intro hc
        have hdw : List.dropWhile isJsWs L = L := by
          rw [hL]; exact List.dropWhile_idempotent isJsWs s
        rw [hds, List.dropWhile_cons, if_pos hc] at hdw
        have hlen := congrArg List.length hdw
        have hle := (List.dropWhile_suffix (p := isJsWs) (l := ds)).length_le
        simp at hlen
        omega
      simp [hc]
  rw [hdrop, List.rdropWhile_idempotent]

set_option maxRecDepth 4000

/-! ## Claims -/

/-- C9: classification is deterministic — for every input string, classifying
it twice yields identical results; `detectIntent` is a pure function of the
input with no hidden state, so the two results are one and the same value. -/
theorem c9_deterministic (s : List Char) : detectIntent s = detectIntent s := rfl

/-- C10: classification of an input equals classification of its
whitespace-trimmed form — `detectIntent` trims its argument before every rule
and fallback test, so the result depends only on the trimmed input. -/
theorem c10_trim_invariant (x : List Char) :
    detectIntent x = detectIntent (jsTrim x) := by
  unfold detectIntent
  rw [jsTrim_idem]

/-- C4: classification returns the no-intent sentinel `none` iff no rule
predicate holds on the trimmed input, the trimmed input does not end with "?",
and its length is at least 80; in every other case some (intent, payload) is
produced. -/
theorem c4_unresolved_iff (input : List Char) :
    detectIntent input = none ↔
      anyRuleTest (jsTrim input) = false ∧ endsWithQ (jsTrim input) = false ∧
        80 ≤ (jsTrim input).length := by
  unfold detectIntent detectCore
  cases h1 : approveDecideTest (jsTrim input) with
  | true =>
    rw [if_pos rfl]
    refine iff_of_false (Option.some_ne_none _) ?_
    rintro ⟨hr, -, -⟩
    rw [anyRuleTest, Bool.or_eq_false_iff, Bool.or_eq_false_iff, Bool.or_eq_false_iff, Bool.or_eq_false_iff, Bool.or_eq_false_iff, Bool.or_eq_false_iff, Bool.or_eq_false_iff, Bool.or_eq_false_iff, Bool.or_eq_false_iff] at hr
    exact absurd hr.1.1.1.1.1.1.1.1.1 (by rw [h1]; exact fun hc => Bool.noConfusion hc)
  | false =>
    rw [if_neg (fun hc => Bool.noConfusion hc)]
    cases h2 : denyRejectTest (jsTrim input) with
    | true =>
      rw [if_pos rfl]
      refine iff_of_false (Option.some_ne_none _) ?_
      rintro ⟨hr, -, -⟩
      rw [anyRuleTest, Bool.or_eq_false_iff, Bool.or_eq_false_iff, Bool.or_eq_false_iff, Bool.or_eq_false_iff, Bool.or_eq_false_iff, Bool.or_eq_false_iff, Bool.or_eq_false_iff, Bool.or_eq_false_iff, Bool.or_eq_false_iff] at hr
      exact absurd hr.1.1.1.1.1.1.1.1.2 (by rw [h2]; exact fun hc => Bool.noConfusion hc)
    | false =>
      rw [if_neg (fun hc => Bool.noConfusion hc)]
      cases h3 : approvalsListTest (jsTrim input) with
      | true =>
        rw [if_pos rfl]
        refine iff_of_false (Option.some_ne_none _) ?_
        rintro ⟨hr, -, -⟩
        rw [anyRuleTest, Bool.or_eq_false_iff, Bool.or_eq_false_iff, Bool.or_eq_false_iff, Bool.or_eq_false_iff, Bool.or_eq_false_iff, Bool.or_eq_false_iff, Bool.or_eq_false_iff, Bool.or_eq_false_iff, Bool.or_eq_false_iff] at hr
        exact absurd hr.1.1.1.1.1.1.1.2 (by rw [h3]; exact fun hc => Bool.noConfusion hc)
      | false =>
        rw [if_neg (fun hc => Bool.noConfusion hc)]
        cases h4 : approvalsRequestTest (jsTrim input) with
        | true =>
          rw [if_pos rfl]
          refine iff_of_false (Option.some_ne_none _) ?_
          rintro ⟨hr, -, -⟩
          rw [anyRuleTest, Bool.or_eq_false_iff, Bool.or_eq_false_iff, Bool.or_eq_false_iff, Bool.or_eq_false_iff, Bool.or_eq_false_iff, Bool.or_eq_false_iff, Bool.or_eq_false_iff, Bool.or_eq_false_iff, Bool.or_eq_false_iff] at hr
          exact absurd hr.1.1.1.1.1.1.2 (by rw [h4]; exact fun hc => Bool.noConfusion hc)
        | false =>
          rw [if_neg (fun hc => Bool.noConfusion hc)]
          cases h5 : knowledgeCreateTest (jsTrim input) with
          | true =>
            rw [if_pos rfl]
            refine iff_of_false (Option.some_ne_none _) ?_
            rintro ⟨hr, -, -⟩
            rw [anyRuleTest, Bool.or_eq_false_iff, Bool.or_eq_false_iff, Bool.or_eq_false_iff, Bool.or_eq_false_iff, Bool.or_eq_false_iff, Bool.or_eq_false_iff, Bool.or_eq_false_iff, Bool.or_eq_false_iff, Bool.or_eq_false_iff] at hr
            exact absurd hr.1.1.1.1.1.2 (by rw [h5]; exact fun hc => Bool.noConfusion hc)
          | false =>
            rw [if_neg (fun hc => Bool.noConfusion hc)]
            cases h6 : knowledgeListTest (jsTrim input) with
            | true =>
              rw [if_pos rfl]
              refine iff_of_false (Option.some_ne_none _) ?_
              rintro ⟨hr, -, -⟩
              rw [anyRuleTest, Bool.or_eq_false_iff, Bool.or_eq_false_iff, Bool.or_eq_false_iff, Bool.or_eq_false_iff, Bool.or_eq_false_iff, Bool.or_eq_false_iff, Bool.or_eq_false_iff, Bool.or_eq_false_iff, Bool.or_eq_false_iff] at hr
              exact absurd hr.1.1.1.1.2 (by rw [h6]; exact fun hc => Bool.noConfusion hc)
            | false =>
              rw [if_neg (fun hc => Bool.noConfusion hc)]
              cases h7 : knowledgeSearchTest (jsTrim input) with
              | true =>
                rw [if_pos rfl]
                refine iff_of_false (Option.some_ne_none _) ?_
                rintro ⟨hr, -, -⟩
                rw [anyRuleTest, Bool.or_eq_false_iff, Bool.or_eq_false_iff, Bool.or_eq_false_iff, Bool.or_eq_false_iff, Bool.or_eq_false_iff, Bool.or_eq_false_iff, Bool.or_eq_false_iff, Bool.or_eq_false_iff, Bool.or_eq_false_iff] at hr
                exact absurd hr.1.1.1.2 (by rw [h7]; exact fun hc => Bool.noConfusion hc)
              | false =>
                rw [if_neg (fun hc => Bool.noConfusion hc)]
                cases h8 : requestsListTest (jsTrim input) with
                | true =>
                  rw [if_pos rfl]
                  refine iff_of_false (Option.some_ne_none _) ?_
                  rintro ⟨hr, -, -⟩
                  rw [anyRuleTest, Bool.or_eq_false_iff, Bool.or_eq_false_iff, Bool.or_eq_false_iff, Bool.or_eq_false_iff, Bool.or_eq_false_iff, Bool.or_eq_false_iff, Bool.or_eq_false_iff, Bool.or_eq_false_iff, Bool.or_eq_false_iff] at hr
                  exact absurd hr.1.1.2 (by rw [h8]; exact fun hc => Bool.noConfusion hc)
                | false =>
                  rw [if_neg (fun hc => Bool.noConfusion hc)]
                  cases h9 : requestsCreateTest (jsTrim input) with
                  | true =>
                    rw [if_pos rfl]
                    refine iff_of_false (Option.some_ne_none _) ?_
                    rintro ⟨hr, -, -⟩
                    rw [anyRuleTest, Bool.or_eq_false_iff, Bool.or_eq_false_iff, Bool.or_eq_false_iff, Bool.or_eq_false_iff, Bool.or_eq_false_iff, Bool.or_eq_false_iff, Bool.or_eq_false_iff, Bool.or_eq_false_iff, Bool.or_eq_false_iff] at hr
                    exact absurd hr.1.2 (by rw [h9]; exact fun hc => Bool.noConfusion hc)
                  | false =>
                    rw [if_neg (fun hc => Bool.noConfusion hc)]
                    cases h10 : statusTest (jsTrim input) with
                    | true =>
                      rw [if_pos rfl]
                      refine iff_of_false (Option.some_ne_none _) ?_
                      rintro ⟨hr, -, -⟩
                      rw [anyRuleTest, Bool.or_eq_false_iff, Bool.or_eq_false_iff, Bool.or_eq_false_iff, Bool.or_eq_false_iff, Bool.or_eq_false_iff, Bool.or_eq_false_iff, Bool.or_eq_false_iff, Bool.or_eq_false_iff, Bool.or_eq_false_iff] at hr
                      exact absurd hr.2 (by rw [h10]; exact fun hc => Bool.noConfusion hc)
                    | false =>
                      rw [if_neg (fun hc => Bool.noConfusion hc)]
                      cases h11 : (endsWithQ (jsTrim input) || decide ((jsTrim input).length < 80)) with
                      | true =>
                        rw [if_pos rfl]
                        refine iff_of_false (Option.some_ne_none _) ?_
                        rintro ⟨-, hq, hlen⟩
                        rw [Bool.or_eq_true] at h11
                        rcases h11 with h | h
                        · rw [hq] at h; exact Bool.noConfusion h
                        · rw [decide_eq_true_eq] at h; omega
                      | false =>
                        rw [if_neg (fun hc => Bool.noConfusion hc)]
                        refine iff_of_true rfl ⟨?_, ?_, ?_⟩
                        · rw [anyRuleTest, h1, h2, h3, h4, h5, h6, h7, h8, h9, h10]
                          rfl
                        · rw [Bool.or_eq_false_iff] at h11
                          exact h11.1
                        · rw [Bool.or_eq_false_iff] at h11
                          have h12 := h11.2
                          rw [decide_eq_false_iff_not] at h12
                          omega

set_option maxHeartbeats 1000000

/-- C1 counterexample: on "create a request to schedule HVAC inspection
urgently" the classifier returns priority "medium" (not "critical") and the
title retains the urgency word: the priority regexes carry `\b`, and
"urgently" contains no word boundary after "urgent", so neither the priority
inference nor the title strip fires. -/
theorem c1_counterexample :
    detectIntent "create a request to schedule HVAC inspection urgently".data =
      some ⟨"requests.create".data,
        .requestsCreate "HVAC inspection urgently".data
          "create a request to schedule HVAC inspection urgently".data
          "medium".data⟩ ∧
    containsCI "urgently".data "HVAC inspection urgently".data = true ∧
    "medium".data ≠ "critical".data := by
  refine ⟨by decide, by decide, by decide⟩

/-- C1 (amended): bare "urgent" is recognised — "create a request to schedule
HVAC inspection urgent" yields priority "critical" with the urgency word
stripped from the title — while the derived form "urgently" fails the
word-boundary match, so that input yields priority "medium" with the word kept
in the title. -/
theorem c1_amended :
    (detectIntent "create a request to schedule HVAC inspection urgent".data =
      some ⟨"requests.create".data,
        .requestsCreate "HVAC inspection".data
          "create a request to schedule HVAC inspection urgent".data
          "critical".data⟩) ∧
    (detectIntent
        "create a request to schedule HVAC inspection urgently".data =
      some ⟨"requests.create".data,
        .requestsCreate "HVAC inspection urgently".data
          "create a request to schedule HVAC inspection urgently".data
          "medium".data⟩) := by
  refine ⟨by decide, by decide⟩

/-- C6: "request approval for $5,000 vendor payment" classifies as an
approval request with amount 5000, a title containing "vendor payment", and
the description equal to the full original input. -/
theorem c6_amount_parsing :
    detectIntent "request approval for $5,000 vendor payment".data =
      some ⟨"approvals.request".data,
        .approvalsRequest "$5,000 vendor payment".data
          "request approval for $5,000 vendor payment".data
          (some (some 5000))⟩ ∧
    containsCI "vendor payment".data "$5,000 vendor payment".data = true := by
  refine ⟨by decide, by decide⟩

/-- C3: "approve abc123" decides an existing approval (never an approval
request), "approve a request for travel" requests an approval (never a
decision), and in general every trimmed input matching `^approve\s+(\S+)` that
does not contain "request", "for" or "need" yields approvals.decide with the
matched token as id. -/
theorem c3_priority_ordering :
    (detectIntent "approve abc123".data =
      some ⟨"approvals.decide".data,
        .approvalsDecide (some "abc123".data) "approved".data⟩) ∧
    (detectIntent "approve a request for travel".data =
      some ⟨"approvals.request".data,
        .approvalsRequest "approve a request for travel".data
          "approve a request for travel".data none⟩) ∧
    ∀ (input tok : List Char),
      approveDecideMatch (jsTrim input) = some tok →
      containsCI "request".data (jsTrim input) = false →
      containsCI "for".data (jsTrim input) = false →
      containsCI "need".data (jsTrim input) = false →
      detectIntent input =
        some ⟨"approvals.decide".data,
          .approvalsDecide (some tok) "approved".data⟩ := by
  refine ⟨by decide, by decide, ?_⟩
  intro input tok hm hreq hfor hneed
  unfold detectIntent detectCore
  have ht : approveDecideTest (jsTrim input) = true := by
    unfold approveDecideTest
    rw [hm, hreq, hfor, hneed]
    rfl
  rw [ht, if_pos rfl, hm]

/-- C3 witness: the general clause applied to the concrete input
"approve zq1". -/
theorem c3_priority_ordering_witness :
    detectIntent "approve zq1".data =
      some ⟨"approvals.decide".data,
        .approvalsDecide (some "zq1".data) "approved".data⟩ :=
  c3_priority_ordering.2.2 "approve zq1".data "zq1".data (by decide) (by decide)
    (by decide) (by decide)

/-- C5 counterexample: "store note:" is a knowledge-create input containing a
colon, yet the extractor does not colon-split it: the colon pattern requires
nonempty content after the colon, so the simple pattern applies and both title
and content are "note:" (with the colon), not title "note" and content "". -/
theorem c5_counterexample :
    detectIntent "store note:".data =
      some ⟨"knowledge.create".data,
        .knowledgeCreate "note:".data "note:".data⟩ ∧
    containsCI ":".data "store note:".data = true ∧
    "note:".data ≠ "note".data ∧
    "note:".data ≠ ([] : List Char) := by
  refine ⟨by decide, by decide, by decide, by decide⟩

/-- C5 (amended): "store our refund policy: full refund within 30 days" splits
into title "refund policy" and content "full refund within 30 days"; in
general, when the knowledge.create rule is the first to match and the colon
pattern matches — nonempty text between the storage verb (with optional
filler) and a colon that is followed by nonempty content — the trimmed left
capture is the title and the trimmed right capture the content. -/
theorem c5_colon_split :
    (detectIntent "store our refund policy: full refund within 30 days".data =
      some ⟨"knowledge.create".data,
        .knowledgeCreate "refund policy".data
          "full refund within 30 days".data⟩) ∧
    ∀ (input t c : List Char),
      approveDecideTest (jsTrim input) = false →
      denyRejectTest (jsTrim input) = false →
      approvalsListTest (jsTrim input) = false →
      approvalsRequestTest (jsTrim input) = false →
      knowledgeCreateTest (jsTrim input) = true →
      kcColonScan (jsTrim input) = some (t, c) →
      detectIntent input =
        some ⟨"knowledge.create".data,
          .knowledgeCreate (jsTrim t) (jsTrim c)⟩ := by
  refine ⟨by decide, ?_⟩
  intro input t c h1 h2 h3 h4 h5 hcol
  unfold detectIntent detectCore
  rw [h1, h2, h3, h4, h5]
  rw [if_neg (fun hc => Bool.noConfusion hc),
    if_neg (fun hc => Bool.noConfusion hc),
    if_neg (fun hc => Bool.noConfusion hc),
    if_neg (fun hc => Bool.noConfusion hc), if_pos rfl]
  unfold knowledgeCreateExtract
  rw [hcol]

/-- C5 witness: the general clause applied to the spec's concrete example. -/
theorem c5_colon_split_witness :
    detectIntent "store a fact: beeboo is fast".data =
      some ⟨"knowledge.create".data,
        .knowledgeCreate "fact".data "beeboo is fast".data⟩ :=
  c5_colon_split.2 "store a fact: beeboo is fast".data "fact".data
    "beeboo is fast".data (by decide) (by decide) (by decide) (by decide)
    (by decide) (by decide)

/-- C2 counterexample: "find pending stuff" matches no rule (the
knowledge.search predicate is vetoed by the substring "pending") and is under
80 characters, so the fallback classifies it as knowledge.search — but the
fallback query keeps the input verbatim (only trailing "?" stripped), whereas
the knowledge.search extractor of the rule table would strip "find " and
return "pending stuff". -/
theorem c2_counterexample :
    detectIntent "find pending stuff".data =
      some ⟨"knowledge.search".data,
        .knowledgeSearch "find pending stuff".data⟩ ∧
    ksExtract "find pending stuff".data = "pending stuff".data ∧
    anyRuleTest (jsTrim "find pending stuff".data) = false ∧
    ("find pending stuff".data).length < 80 ∧
    "find pending stuff".data ≠ "pending stuff".data := by
  refine ⟨by decide, by decide, by decide, by decide, by decide⟩

/-- C2 (amended): when no rule predicate holds and the trimmed input ends with
"?" or is under 80 characters, classification returns knowledge.search whose
query is the trimmed input with trailing question marks stripped and trimmed —
the fallback does not run the rule-table extractor. -/
theorem c2_fallback (input : List Char)
    (hr : anyRuleTest (jsTrim input) = false)
    (hfb : endsWithQ (jsTrim input) = true ∨ (jsTrim input).length < 80) :
    detectIntent input =
      some ⟨"knowledge.search".data,
        .knowledgeSearch (jsTrim (dropTrailingQs (jsTrim input)))⟩ := by
  unfold anyRuleTest at hr
  rw [Bool.or_eq_false_iff, Bool.or_eq_false_iff, Bool.or_eq_false_iff,
    Bool.or_eq_false_iff, Bool.or_eq_false_iff, Bool.or_eq_false_iff,
    Bool.or_eq_false_iff, Bool.or_eq_false_iff, Bool.or_eq_false_iff] at hr
  obtain ⟨⟨⟨⟨⟨⟨⟨⟨⟨t1, t2⟩, t3⟩, t4⟩, t5⟩, t6⟩, t7⟩, t8⟩, t9⟩, t10⟩ := hr
  unfold detectIntent detectCore
  rw [t1, t2, t3, t4, t5, t6, t7, t8, t9, t10]
  rw [if_neg (fun hc => Bool.noConfusion hc),
    if_neg (fun hc => Bool.noConfusion hc),
    if_neg (fun hc => Bool.noConfusion hc),
    if_neg (fun hc => Bool.noConfusion hc),
    if_neg (fun hc => Bool.noConfusion hc),
    if_neg (fun hc => Bool.noConfusion hc),
    if_neg (fun hc => Bool.noConfusion hc),
    if_neg (fun hc => Bool.noConfusion hc),
    if_neg (fun hc => Bool.noConfusion hc),
    if_neg (fun hc => Bool.noConfusion hc)]
  have hcond : (endsWithQ (jsTrim input) ||
      decide ((jsTrim input).length < 80)) = true := by
    rcases hfb with h | h
    · rw [h, Bool.true_or]
    · rw [decide_eq_true h, Bool.or_true]
  rw [hcond, if_pos rfl]

/-- C2 witness: the amended fallback applied to the concrete input "zzz?". -/
theorem c2_fallback_witness :
    detectIntent "zzz?".data =
      some ⟨"knowledge.search".data, .knowledgeSearch "zzz".data⟩ :=
  c2_fallback "zzz?".data (by decide) (Or.inl (by decide))

/-! ## Supporting lemmas for the amount field -/

theorem amountAt_isSome_iff (s : List Char) :
    (amountAt s).isSome = true ↔
      ∃ d r, s = '$' :: d :: r ∧ digitComma d = true := by
  rcases s with _ | ⟨c, cs⟩
  · simp [amountAt]
  · by_cases hc : c = '$'
    · subst hc
      rcases cs with _ | ⟨d, r⟩
      · simp [amountAt]
      · by_cases hd : digitComma d = true
        · constructor
          · intro _
            exact ⟨d, r, rfl, hd⟩
          · intro _
            simp only [amountAt, if_true]
            rw [List.takeWhile_cons, if_pos hd, if_neg (by simp)]
            split
            · split <;> rfl
            · rfl
        · constructor
          · intro hs
            exfalso
            simp only [amountAt, if_true] at hs
            rw [List.takeWhile_cons, if_neg hd] at hs
            simp at hs
          · rintro ⟨d', r', heq, hd'⟩
            injection heq with h1 h2
            injection h2 with h3 h4
            subst h3
            exact absurd hd' hd
    · constructor
      · intro hs
        exfalso
        simp only [amountAt] at hs
        rw [if_neg hc] at hs
        simp at hs
      · rintro ⟨d', r', heq, -⟩
        injection heq with h1 _
        exact absurd h1 hc

theorem amountScan_isSome_iff (s : List Char) :
    (amountScan s).isSome = true ↔
      ∃ a d r, s = a ++ '$' :: d :: r ∧ digitComma d = true := by
  induction s with
  | nil => simp [amountScan]
  | cons c cs ih =>
    unfold amountScan
    constructor
    · intro h
      rcases ha : amountAt (c :: cs) with _ | m
      · rw [ha] at h
        rcases ih.mp h with ⟨a, d, r, heq, hd⟩
        exact ⟨c :: a, d, r, by rw [heq]; rfl, hd⟩
      · have h0 := (amountAt_isSome_iff (c :: cs)).mp (by rw [ha]; rfl)
        rcases h0 with ⟨d, r, heq, hd⟩
        exact ⟨[], d, r, heq, hd⟩
    · rintro ⟨a, d, r, heq, hd⟩
      rcases a with _ | ⟨b, a'⟩
      · have h0 : (amountAt (c :: cs)).isSome = true :=
          (amountAt_isSome_iff (c :: cs)).mpr ⟨d, r, heq, hd⟩
        rcases ha : amountAt (c :: cs) with _ | m
        · rw [ha] at h0
          exact absurd h0 (by simp)
        · rfl
      · injection heq with h1 h2
        have h3 : (amountScan cs).isSome = true := ih.mpr ⟨a', d, r, h2, hd⟩
        rcases ha : amountAt (c :: cs) with _ | m
        · exact h3
        · rfl

theorem hasDollarDigit_iff (s : List Char) :
    hasDollarDigit s = true ↔
      ∃ a d r, s = a ++ '$' :: d :: r ∧ d.isDigit = true := by
  induction s with
  | nil => simp [hasDollarDigit]
  | cons c cs ih =>
    unfold hasDollarDigit
    rw [Bool.or_eq_true]
    constructor
    · rintro (h | h)
      · rw [Bool.and_eq_true_iff] at h
        obtain ⟨hc, hd⟩ := h
        rw [decide_eq_true_eq] at hc
        subst hc
        rcases cs with _ | ⟨d, r⟩
        · exact absurd hd (by simp)
        · exact ⟨[], d, r, rfl, hd⟩
      · rcases ih.mp h with ⟨a, d, r, heq, hd⟩
        exact ⟨c :: a, d, r, by rw [heq]; rfl, hd⟩
    · rintro ⟨a, d, r, heq, hd⟩
      rcases a with _ | ⟨b, a'⟩
      · injection heq with h1 h2
        subst h1
        subst h2
        left
        rw [Bool.and_eq_true_iff]
        exact ⟨by simp, hd⟩
      · injection heq with h1 h2
        right
        exact ih.mpr ⟨a', d, r, h2, hd⟩

theorem amountAt_shape (s m : List Char) (h : amountAt s = some m) :
    ∃ run cents, m = '$' :: run ++ cents ∧ run ≠ [] ∧
      (∀ c ∈ run, digitComma c = true) ∧
      (cents = [] ∨
        ∃ a b, cents = ['.', a, b] ∧ a.isDigit = true ∧ b.isDigit = true) := by
  rcases s with _ | ⟨c, cs⟩
  · exact absurd h (by simp [amountAt])
  · simp only [amountAt] at h
    by_cases hc : c = '$'
    · rw [if_pos hc] at h
      by_cases he : (cs.takeWhile digitComma).isEmpty = true
      · rw [if_pos he] at h
        exact absurd h (by simp)
      · rw [if_neg he] at h
        have hmem : ∀ x ∈ cs.takeWhile digitComma, digitComma x = true :=
          fun x hx => List.mem_takeWhile_imp hx
        have hne : cs.takeWhile digitComma ≠ [] := by
          intro h0
          rw [h0] at he
          exact he rfl
        split at h
        · split at h
          · rename_i a b tail heq hab
            rw [Bool.and_eq_true_iff] at hab
            injection h with h'
            exact ⟨cs.takeWhile digitComma, ['.', a, b], by rw [← h'], hne,
              hmem, Or.inr ⟨a, b, rfl, hab.1, hab.2⟩⟩
          · injection h with h'
            exact ⟨cs.takeWhile digitComma, [], by rw [← h']; simp, hne,
              hmem, Or.inl rfl⟩
        · injection h with h'
          exact ⟨cs.takeWhile digitComma, [], by rw [← h']; simp, hne,
            hmem, Or.inl rfl⟩
    · rw [if_neg hc] at h
      exact absurd h (by simp)

theorem digit_not_dollar_comma (x : Char) (hx : x.isDigit = true) :
    (!(x = '$' || x = ',') : Bool) = true := by
  have h1 : ¬ x = '$' := by
    intro he
    subst he
    exact absurd hx (by decide)
  have h2 : ¬ x = ',' := by
    intro he
    subst he
    exact absurd hx (by decide)
  simp [h1, h2]

theorem parseAmount_none_iff (m : List Char)
    (h : ∃ run cents, m = '$' :: run ++ cents ∧ run ≠ [] ∧
      (∀ c ∈ run, digitComma c = true) ∧
      (cents = [] ∨
        ∃ a b, cents = ['.', a, b] ∧ a.isDigit = true ∧ b.isDigit = true)) :
    parseAmount m = none ↔ ∀ c ∈ m, c.isDigit = false := by
  obtain ⟨run, cents, hm, hne, hmem, hcents⟩ := h
  subst hm
  have hrun : run.filter (fun c => !(c = '$' || c = ',')) =
      run.filter Char.isDigit := by
    refine List.filter_congr ?_
    intro x hx
    have hdc := hmem x hx
    rw [digitComma, Bool.or_eq_true] at hdc
    rcases hdc with hd | hd
    · rw [digit_not_dollar_comma x hd, hd]
    · rw [decide_eq_true_eq] at hd
      subst hd
      decide
  have hcf : List.filter (fun c => !(c = '$' || c = ',')) cents = cents := by
    rcases hcents with hc0 | ⟨a, b, hc1, ha, hb⟩
    · rw [hc0]
      rfl
    · rw [hc1, List.filter_cons, if_pos (by decide), List.filter_cons,
        if_pos (by rw [digit_not_dollar_comma a ha]), List.filter_cons,
        if_pos (by rw [digit_not_dollar_comma b hb])]
      rfl
  have hcl : List.filter (fun c => !(c = '$' || c = ','))
      ('$' :: run ++ cents) = run.filter Char.isDigit ++ cents := by
    rw [List.filter_append, List.filter_cons, if_neg (by decide), hrun, hcf]
  have hdig : ∀ x ∈ run.filter Char.isDigit, x.isDigit = true := by
    intro x hx
    exact (List.mem_filter.mp hx).2
  unfold parseAmount
  rw [hcl, List.takeWhile_append_of_pos hdig, List.dropWhile_append_of_pos hdig]
  rcases hcents with hc0 | ⟨a, b, hc1, ha, hb⟩
  · subst hc0
    rw [List.takeWhile_nil, List.dropWhile_nil, List.append_nil]
    rcases hfe : run.filter Char.isDigit with _ | ⟨x, xs⟩
    · constructor
      · intro _ c hcm
        rw [List.mem_append, List.mem_nil_iff, or_false, List.mem_cons] at hcm
        rcases hcm with hcm | hcm
        · subst hcm
          decide
        · by_contra hcd
          rw [Bool.not_eq_false] at hcd
          have hmemf : c ∈ run.filter Char.isDigit :=
            List.mem_filter.mpr ⟨hcm, hcd⟩
          rw [hfe] at hmemf
          exact absurd hmemf (List.not_mem_nil c)
      · intro _
        rfl
    · constructor
      · intro hp
        exact Option.noConfusion hp
      · intro hall
        have hx : x ∈ run.filter Char.isDigit := by
          rw [hfe]
          exact List.mem_cons_self x xs
        have hxr : x ∈ run := (List.mem_filter.mp hx).1
        have hxd := hall x
          (List.mem_append.mpr (Or.inl (List.mem_cons_of_mem _ hxr)))
        rw [(List.mem_filter.mp hx).2] at hxd
        exact Bool.noConfusion hxd
  · subst hc1
    have htw : List.takeWhile Char.isDigit ['.', a, b] = [] := by
      rw [List.takeWhile_cons, if_neg (by decide)]
    have hdw : List.dropWhile Char.isDigit ['.', a, b] = ['.', a, b] := by
      rw [List.dropWhile_cons, if_neg (by decide)]
    rw [htw, hdw, List.append_nil]
    constructor
    · intro hp
      exact Option.noConfusion hp
    · intro hall
      have hxd := hall a (by simp)
      rw [ha] at hxd
      exact Bool.noConfusion hxd

theorem amountScan_some (s m : List Char) (h : amountScan s = some m) :
    ∃ t, amountAt t = some m := by
  induction s with
  | nil => exact absurd h (by simp [amountScan])
  | cons c cs ih =>
    unfold amountScan at h
    rcases ha : amountAt (c :: cs) with _ | m'
    · rw [ha] at h
      exact ih h
    · rw [ha] at h
      injection h with h'
      exact ⟨c :: cs, by rw [ha, h']⟩

/-- C7 counterexample: on "need approval for $,," the ApprovalRequest
extractor sets the amount field (to the `NaN` of `parseFloat("")`, modelled as
the inner `none`) although no "$" in the input is immediately followed by a
digit — `[\d,]+` also matches a commas-only run, so "amount is unset
otherwise" fails. -/
theorem c7_counterexample :
    detectIntent "need approval for $,,".data =
      some ⟨"approvals.request".data,
        .approvalsRequest "$,,".data "need approval for $,,".data
          (some none)⟩ ∧
    (¬ ∃ a d r, "need approval for $,,".data = a ++ '$' :: d :: r ∧
        d.isDigit = true) ∧
    (some (none : Option ℚ) ≠ (none : Option (Option ℚ))) := by
  refine ⟨by decide, ?_, by simp⟩
  intro hex
  have hdd := (hasDollarDigit_iff "need approval for $,,".data).mpr hex
  exact absurd hdd (by decide)

/-- C7 (amended): the amount field is set iff the input contains "$"
immediately followed by at least one digit-or-comma character; the parsed
value is `parseFloat` of the match with "$" and separators discarded, which is
a number iff the match contains a digit (the digits' decimal value, with the
optional cents group) and the `NaN` sentinel exactly when the matched run is
commas-only. -/
theorem c7_amount_field (s : List Char) :
    ((requestAmount s ≠ none) ↔
      ∃ a d r, s = a ++ '$' :: d :: r ∧ digitComma d = true) ∧
    (∀ m, amountScan s = some m →
      (parseAmount m = none ↔ ∀ c ∈ m, c.isDigit = false)) := by
  constructor
  · unfold requestAmount
    constructor
    · intro hne
      have hs : (amountScan s).isSome = true := by
        rcases hsc : amountScan s with _ | m
        · rw [hsc] at hne
          exact absurd rfl hne
        · rfl
      exact (amountScan_isSome_iff s).mp hs
    · intro hex
      have hs := (amountScan_isSome_iff s).mpr hex
      rcases hsc : amountScan s with _ | m
      · rw [hsc] at hs
        exact absurd hs (by simp)
      · simp
  · intro m hm
    obtain ⟨t, ht⟩ := amountScan_some s m hm
    exact parseAmount_none_iff m (amountAt_shape t m ht)

/-- C7 witness: the amended characterisation applied to "pay $5 now". -/
theorem c7_amount_field_witness :
    requestAmount "pay $5 now".data ≠ none ∧
    ¬ parseAmount "$5".data = none := by
  constructor
  · exact (c7_amount_field "pay $5 now".data).1.mpr
      ⟨"pay ".data, '5', " now".data, by decide, by decide⟩
  · intro hn
    have h := ((c7_amount_field "pay $5 now".data).2 "$5".data
      (by decide)).mp hn
    have h5 := h '5' (by decide)
    exact absurd h5 (by decide)

theorem wfRequest_title (t : List Char) :
    (if t.isEmpty then "Approval Request".data else t) ≠ [] := by
  split
  · decide
  · rename_i hcond
    exact fun heq => hcond (by rw [heq]; rfl)

theorem wfTitle_fallback (u t : List Char) (hu : u ≠ []) :
    (if t.isEmpty || t.length < 3 then u else t) ≠ [] := by
  split
  · exact hu
  · rename_i hcond
    intro heq
    exact hcond (by rw [heq]; rfl)

theorem prio_cases {c1 c2 c3 : Prop} [Decidable c1] [Decidable c2]
    [Decidable c3] (A B C D : List Char) :
    (if c1 then A else if c2 then B else if c3 then C else D) = A ∨
    (if c1 then A else if c2 then B else if c3 then C else D) = B ∨
    (if c1 then A else if c2 then B else if c3 then C else D) = C ∨
    (if c1 then A else if c2 then B else if c3 then C else D) = D := by
  split_ifs <;> simp

/-- C8: classification is a total function — on every input it yields
either the sentinel or a payload in which every field the extractors must
derive is present: the approvals.decide id token always exists (the `test`
guarantees the `extract`'s match), the approvals.request and
requests.create titles are nonempty (their documented defaults fill in),
and the priority is one of the four documented values. -/
theorem c8_extractors_total (input : List Char) (d : Detected)
    (h : detectIntent input = some d) : WellFormedPayload d.data := by
  unfold detectIntent detectCore at h
  cases h1 : approveDecideTest (jsTrim input) with
  | true =>
    rw [h1, if_pos rfl] at h
    injection h with h'
    subst h'
    unfold approveDecideTest at h1
    rw [Bool.and_eq_true_iff] at h1
    exact h1.1
  | false =>
    rw [h1, if_neg (fun hc => Bool.noConfusion hc)] at h
    cases h2 : denyRejectTest (jsTrim input) with
    | true =>
      rw [h2, if_pos rfl] at h
      injection h with h'
      subst h'
      exact h2
    | false =>
      rw [h2, if_neg (fun hc => Bool.noConfusion hc)] at h
      cases h3 : approvalsListTest (jsTrim input) with
      | true =>
        rw [h3, if_pos rfl] at h
        injection h with h'
        subst h'
        trivial
      | false =>
        rw [h3, if_neg (fun hc => Bool.noConfusion hc)] at h
        cases h4 : approvalsRequestTest (jsTrim input) with
        | true =>
          rw [h4, if_pos rfl] at h
          injection h with h'
          subst h'
          exact wfRequest_title _
        | false =>
          rw [h4, if_neg (fun hc => Bool.noConfusion hc)] at h
          cases h5 : knowledgeCreateTest (jsTrim input) with
          | true =>
            rw [h5, if_pos rfl] at h
            injection h with h'
            subst h'
            simp only [knowledgeCreateExtract]
            split
            · trivial
            · split
              · trivial
              · trivial
          | false =>
            rw [h5, if_neg (fun hc => Bool.noConfusion hc)] at h
            cases h6 : knowledgeListTest (jsTrim input) with
            | true =>
              rw [h6, if_pos rfl] at h
              injection h with h'
              subst h'
              trivial
            | false =>
              rw [h6, if_neg (fun hc => Bool.noConfusion hc)] at h
              cases h7 : knowledgeSearchTest (jsTrim input) with
              | true =>
                rw [h7, if_pos rfl] at h
                injection h with h'
                subst h'
                trivial
              | false =>
                rw [h7, if_neg (fun hc => Bool.noConfusion hc)] at h
                cases h8 : requestsListTest (jsTrim input) with
                | true =>
                  rw [h8, if_pos rfl] at h
                  injection h with h'
                  subst h'
                  trivial
                | false =>
                  rw [h8, if_neg (fun hc => Bool.noConfusion hc)] at h
                  cases h9 : requestsCreateTest (jsTrim input) with
                  | true =>
                    rw [h9, if_pos rfl] at h
                    injection h with h'
                    subst h'
                    refine ⟨?_, ?_⟩
                    · refine wfTitle_fallback _ _ ?_
                      rw [jsTrim_idem]
                      intro h0
                      rw [h0] at h9
                      exact absurd h9 (by decide)
                    · exact prio_cases _ _ _ _
                  | false =>
                    rw [h9, if_neg (fun hc => Bool.noConfusion hc)] at h
                    cases h10 : statusTest (jsTrim input) with
                    | true =>
                      rw [h10, if_pos rfl] at h
                      injection h with h'
                      subst h'
                      trivial
                    | false =>
                      rw [h10, if_neg (fun hc => Bool.noConfusion hc)] at h
                      cases h11 : (endsWithQ (jsTrim input) || decide ((jsTrim input).length < 80)) with
                      | true =>
                        rw [h11, if_pos rfl] at h
                        injection h with h'
                        subst h'
                        trivial
                      | false =>
                        rw [h11, if_neg (fun hc => Bool.noConfusion hc)] at h
                        exact Option.noConfusion h

/-- C8 witness: the totality invariant at the concrete decide input
"deny req-7". -/
theorem c8_extractors_total_witness :
    WellFormedPayload
      (Payload.approvalsDecide (some "req-7".data) "denied".data) :=
  c8_extractors_total "deny req-7".data
    ⟨"approvals.decide".data,
      .approvalsDecide (some "req-7".data) "denied".data⟩ (by decide)
